import Mathlib

/-!
Verification of the plan CRUD handlers (`app/server/handlers/plans_crud.go`).

The handlers are embedded as pure functions over an explicit plan store,
modelled as a list of plan rows.  Each handler returns its outcome, the
store left behind, and the trace of database calls it issued, so that both
functional behaviour and side-effect (frame) properties can be stated.
The unbounded collision-avoidance loop of `CreatePlanHandler` is embedded
with an explicit fuel parameter; termination is proved separately by
showing that some finite fuel always suffices.
-/

namespace PlansCrud

/-- Maximum number of plans for a trial user (`TrialMaxPlans` in the source). -/
def TrialMaxPlans : Nat := 10

/-- A plan row as stored in the `plans` table: identifier, organization id,
project id, owner id and name. -/
structure Plan where
  id : String
  orgId : String
  projectId : String
  ownerId : String
  name : String
deriving DecidableEq

/-- The fields of a user record consulted by the trial quota gate
(`user.IsTrial`, `user.NumNonDraftPlans`). -/
structure User where
  IsTrial : Bool
  NumNonDraftPlans : Nat
deriving DecidableEq

/-- The plan store: the non-deleted rows of the `plans` table. -/
abbrev PlanStore := List Plan

/-- A database or external-side-effect call issued by a handler.  Recording
the trace lets frame properties (which operations ran, in which order, with
which arguments) be stated about each handler. -/
inductive DbCall where
  | getUserCall (userId : String)
  | countPlansCall (projectId ownerId name : String)
  | deleteDraftPlansCall (orgId projectId ownerId : String)
  | createPlanCall (orgId projectId ownerId name : String)
  | deletePlanRowCall (planId : String)
  | deletePlanDirCall (orgId planId : String)
  | deleteOwnerPlansCall (orgId projectId ownerId : String)
  | listOwnedPlansCall (projectId ownerId : String) (includeArchived : Bool) (nameFilter : String)
deriving DecidableEq

/-- The existence check of the collision loop:
`SELECT COUNT(*) FROM plans WHERE project_id = $1 AND owner_id = $2 AND name = $3`. -/
def countPlans (store : PlanStore) (projectId ownerId name : String) : Nat :=
  (store.filter (fun p => p.projectId == projectId && p.ownerId == ownerId && p.name == name)).length

/-- Modelled from the spec: `DeleteDraftPlans(orgId, projectId, ownerId)` (the body of
`db.DeleteDraftPlans` is not part of the excerpt) deletes all existing draft plans —
plans bearing the reserved name "draft" — for the given (org, project, owner) scope. -/
def deleteDraftPlans (store : PlanStore) (orgId projectId ownerId : String) : PlanStore :=
  store.filter (fun p =>
    !(p.orgId == orgId && p.projectId == projectId && p.ownerId == ownerId && p.name == "draft"))

/-- Modelled from the spec: `DeleteOwnerPlans(orgId, projectId, ownerId)` (the body of
`db.DeleteOwnerPlans` is not part of the excerpt) deletes all plans owned by the given
owner in the given (org, project) scope. -/
def deleteOwnerPlans (store : PlanStore) (orgId projectId ownerId : String) : PlanStore :=
  store.filter (fun p =>
    !(p.orgId == orgId && p.projectId == projectId && p.ownerId == ownerId))

/-- Modelled from the spec: `CreatePlan(orgId, projectId, ownerId, name)` (the body of
`db.CreatePlan` is not part of the excerpt) persists a new plan record with the given
fields; the fresh identifier assigned by the persistence layer is supplied here as the
`freshId` argument. -/
def createPlan (store : PlanStore) (orgId projectId ownerId name freshId : String) :
    Plan × PlanStore :=
  let p : Plan := ⟨freshId, orgId, projectId, ownerId, name⟩
  (p, store ++ [p])

/-- The row deletion `DELETE FROM plans WHERE id = $1`: returns the remaining store
and the number of rows affected. -/
def deletePlanRow (store : PlanStore) (planId : String) : PlanStore × Nat :=
  (store.filter (fun p => !(p.id == planId)),
   (store.filter (fun p => p.id == planId)).length)

/-- Modelled from the spec: `ListOwnedPlans(projectId, ownerId, includeArchived, filter)`
(the body of `db.ListOwnedPlans` is not part of the excerpt) returns the project's plans,
restricted to the given owner only when a non-empty owner id is supplied; an empty owner
id imposes no owner restriction.  The archived and name filters act on data outside the
modelled state and are opaque here. -/
def listOwnedPlans (store : PlanStore) (projectId ownerId : String) : List Plan :=
  store.filter (fun p => p.projectId == projectId && (ownerId == "" || p.ownerId == ownerId))

/-- Outcome of `CreatePlanHandler` past authentication, authorization and body
parsing.  `loopRunning` represents the source's unbounded collision loop not having
returned within the modelled fuel. -/
inductive CreateOutcome where
  | created (id name : String)
  | apiErrTrialPlansExceeded (status maxPlans : Nat) (msg : String)
  | internalError (msg : String)
  | loopRunning
deriving DecidableEq

/-- Result of a creation request: outcome, resulting store, trace of calls. -/
structure CreateResult where
  outcome : CreateOutcome
  store : PlanStore
  calls : List DbCall
deriving DecidableEq

/-- The collision-avoidance loop of `CreatePlanHandler` (source lines 97–115):
starting from the current candidate `name` and counter `i`, repeatedly check whether a
plan with the candidate name exists in (project, owner) scope; accept the first free
candidate, otherwise retry with `originalName ++ "." ++ i` and `i + 1`.  The Go loop is
unbounded; `fuel` bounds the embedding, with `none` meaning the loop has not returned
within `fuel` iterations. -/
def resolveNameLoop (store : PlanStore) (projectId ownerId originalName : String) :
    Nat → String → Nat → Option String × List DbCall
  | 0, _, _ => (none, [])
  | fuel + 1, name, i =>
    if countPlans store projectId ownerId name = 0 then
      (some name, [DbCall.countPlansCall projectId ownerId name])
    else
      let rest := resolveNameLoop store projectId ownerId originalName fuel
        (originalName ++ "." ++ Nat.repr i) (i + 1)
      (rest.1, DbCall.countPlansCall projectId ownerId name :: rest.2)

/-- The body of `CreatePlanHandler` after the trial quota gate (source lines 82–142):
substitute "draft" for an empty requested name; on the draft path delete existing
drafts, otherwise run the collision loop; then persist the plan. -/
def createPlanAfterGate (orgId projectId userId reqName freshId : String) (fuel : Nat)
    (store : PlanStore) (calls : List DbCall) : CreateResult :=
  let name := if reqName = "" then "draft" else reqName
  if name = "draft" then
    let store1 := deleteDraftPlans store orgId projectId userId
    let pr := createPlan store1 orgId projectId userId name freshId
    ⟨.created pr.1.id pr.1.name, pr.2,
      calls ++ [.deleteDraftPlansCall orgId projectId userId,
                .createPlanCall orgId projectId userId name]⟩
  else
    let lr := resolveNameLoop store projectId userId name fuel name 2
    match lr.1 with
    | none => ⟨.loopRunning, store, calls ++ lr.2⟩
    | some finalName =>
      let pr := createPlan store orgId projectId userId finalName freshId
      ⟨.created pr.1.id pr.1.name, pr.2,
        calls ++ lr.2 ++ [.createPlanCall orgId projectId userId finalName]⟩

/-- `CreatePlanHandler` past authentication, permission check, project authorization
and body parsing (source lines 42–142).  `isCloud` models `os.Getenv("IS_CLOUD") != ""`;
`getUserResult` models the result of `db.GetUser` (with `none` for a lookup error);
`freshId` is the identifier the persistence layer assigns to the new plan. -/
def createPlanHandler (isCloud : Bool) (getUserResult : Option User)
    (orgId projectId userId reqName freshId : String) (fuel : Nat)
    (store : PlanStore) : CreateResult :=
  if isCloud then
    match getUserResult with
    | none => ⟨.internalError "Error getting user", store, [.getUserCall userId]⟩
    | some user =>
      if user.IsTrial then
        if TrialMaxPlans ≤ user.NumNonDraftPlans then
          ⟨.apiErrTrialPlansExceeded 403 TrialMaxPlans
              "User has reached max number of free trial plans",
            store, [.getUserCall userId]⟩
        else
          createPlanAfterGate orgId projectId userId reqName freshId fuel store
            [.getUserCall userId]
      else
        createPlanAfterGate orgId projectId userId reqName freshId fuel store
          [.getUserCall userId]
  else
    createPlanAfterGate orgId projectId userId reqName freshId fuel store []

/-- Outcome of the deletion handlers past authentication and authorization. -/
inductive DeleteOutcome where
  | ok
  | forbidden (msg : String)
  | notFound
  | internalError (msg : String)
deriving DecidableEq

/-- Result of a deletion request: outcome, resulting store, trace of calls. -/
structure DeleteResult where
  outcome : DeleteOutcome
  store : PlanStore
  calls : List DbCall
deriving DecidableEq

/-- `DeletePlanHandler` past authentication and plan authorization (source lines
187–229): `authorizedPlan` is the plan returned by `authorizePlanDelete`; only the
owner may delete; the row deletion reports NotFound when zero rows were affected;
afterwards the external plan directory is removed, whose success is modelled by
`dirDeleteOk`. -/
def deletePlanHandler (authorizedPlan : Plan) (userId orgId planId : String)
    (dirDeleteOk : Bool) (store : PlanStore) : DeleteResult :=
  if authorizedPlan.ownerId ≠ userId then
    ⟨.forbidden "Only the plan owner can delete a plan", store, []⟩
  else
    let dr := deletePlanRow store planId
    if dr.2 = 0 then
      ⟨.notFound, dr.1, [.deletePlanRowCall planId]⟩
    else if dirDeleteOk then
      ⟨.ok, dr.1, [.deletePlanRowCall planId, .deletePlanDirCall orgId planId]⟩
    else
      ⟨.internalError "Error deleting plan dir", dr.1,
        [.deletePlanRowCall planId, .deletePlanDirCall orgId planId]⟩

/-- `DeleteAllPlansHandler` past authentication and project authorization (source
lines 244–257): a single call to `db.DeleteOwnerPlans` for the caller's
(org, project, owner) scope. -/
def deleteAllPlansHandler (orgId projectId userId : String) (store : PlanStore) :
    DeleteResult :=
  ⟨.ok, deleteOwnerPlans store orgId projectId userId,
    [.deleteOwnerPlansCall orgId projectId userId]⟩

/-- `ListPlansHandler` past authorization (source line 275): lists the caller's own
non-archived plans of the project. -/
def listPlansHandler (projectId userId : String) (store : PlanStore) :
    List Plan × List DbCall :=
  (listOwnedPlans store projectId userId,
   [.listOwnedPlansCall projectId userId false ""])

/-- `ListArchivedPlansHandler` past authorization (source line 311): lists the
project's archived plans with an empty owner id. -/
def listArchivedPlansHandler (projectId : String) (store : PlanStore) :
    List Plan × List DbCall :=
  (listOwnedPlans store projectId "",
   [.listOwnedPlansCall projectId "" true ""])

/-- Decodes a decimal digit character; proof infrastructure for the injectivity of
`Nat.repr`, which underlies distinctness of the loop's candidate names. -/
def digitVal (c : Char) : Nat :=
  if c = '0' then 0 else
  if c = '1' then 1 else
  if c = '2' then 2 else
  if c = '3' then 3 else
  if c = '4' then 4 else
  if c = '5' then 5 else
  if c = '6' then 6 else
  if c = '7' then 7 else
  if c = '8' then 8 else
  if c = '9' then 9 else 10

/-- Decodes a list of decimal digit characters to the natural number it denotes. -/
def digitsVal (l : List Char) : Nat :=
  l.foldl (fun a c => 10 * a + digitVal c) 0

/-- The sequence of names the collision loop tries for requested name `originalName`:
the name itself, then `originalName.2`, `originalName.3`, and so on. -/
def candidateName (originalName : String) : Nat → String
  | 0 => originalName
  | j + 1 => originalName ++ "." ++ Nat.repr (j + 2)

/-- Whether a creation outcome is the structured trial-quota refusal. -/
def isTrialExceededOutcome : CreateOutcome → Bool
  | .apiErrTrialPlansExceeded _ _ _ => true
  | _ => false

/-- The trial quota gate lets the request through: cloud mode is off, or the user
was fetched and is either not on trial or below the trial plan maximum. -/
def GateAllows (isCloud : Bool) (getUserResult : Option User) : Prop :=
  isCloud = false ∨
    ∃ u, getUserResult = some u ∧
      (u.IsTrial = false ∨ u.NumNonDraftPlans < TrialMaxPlans)

/-- The per-scope name-uniqueness invariant: no two rows of the store share a
(project id, owner id, name) triple. -/
def ScopedNamesUnique (store : PlanStore) : Prop :=
  store.Pairwise (fun p q => p.projectId = q.projectId → p.ownerId = q.ownerId →
    p.name ≠ q.name)

/-! Injectivity of `Nat.repr`, proved by decoding the digit string back to the
number.  Candidate names built by the collision loop embed `Nat.repr` of the
counter, so their distinctness reduces to this fact. -/

theorem toDigitsCore_shift (f : Nat) : ∀ (n : Nat) (l : List Char),
    Nat.toDigitsCore 10 f n l = Nat.toDigitsCore 10 f n [] ++ l := by
  induction f with
  | zero => intro n l; simp [Nat.toDigitsCore]
  | succ f ih =>
    intro n l
    simp only [Nat.toDigitsCore]
    by_cases h : n / 10 = 0
    · simp [h]
    · simp only [h, if_false]
      rw [ih (n / 10) (Nat.digitChar (n % 10) :: l), ih (n / 10) [Nat.digitChar (n % 10)]]
      simp

theorem digitVal_digitChar : ∀ d, d < 10 → digitVal (Nat.digitChar d) = d := by decide

theorem digitsVal_append_singleton (l : List Char) (c : Char) :
    digitsVal (l ++ [c]) = 10 * digitsVal l + digitVal c := by
  simp [digitsVal, List.foldl_append]

theorem digitsVal_toDigitsCore (f : Nat) : ∀ n, n < f →
    digitsVal (Nat.toDigitsCore 10 f n []) = n := by
  induction f with
  | zero => intro n h; exact absurd h (Nat.not_lt_zero n)
  | succ f ih =>
    intro n hn
    simp only [Nat.toDigitsCore]
    by_cases h : n / 10 = 0
    · have hlt : n < 10 := by omega
      simp only [h, if_true, digitsVal, List.foldl, Nat.mul_zero, Nat.zero_add]
      rw [digitVal_digitChar (n % 10) (Nat.mod_lt n (by omega) )]
      omega
    · simp only [h, if_false]
      rw [toDigitsCore_shift]
      rw [digitsVal_append_singleton]
      have hlt : n / 10 < f := by
        have hself : n / 10 < n := Nat.div_lt_self (by omega) (by omega)
        omega
      rw [ih (n / 10) hlt, digitVal_digitChar (n % 10) (Nat.mod_lt n (by omega))]
      omega

theorem Nat_repr_injective : Function.Injective Nat.repr := by
  intro m n h
  have hd : Nat.toDigitsCore 10 (m + 1) m [] = Nat.toDigitsCore 10 (n + 1) n [] := by
    have hdata := congrArg String.data h
    simpa [Nat.repr, Nat.toDigits, List.asString] using hdata
  have hm := digitsVal_toDigitsCore (m + 1) m (Nat.lt_succ_self m)
  have hn := digitsVal_toDigitsCore (n + 1) n (Nat.lt_succ_self n)
  rw [hd] at hm
  omega

theorem candidateName_data (N : String) (j : Nat) :
    (candidateName N (j + 1)).data = N.data ++ ['.'] ++ (Nat.repr (j + 2)).data := by
  simp [candidateName]

theorem candidateName_injective (N : String) : Function.Injective (candidateName N) := by
  intro j k h
  match j, k with
  | 0, 0 => rfl
  | 0, k + 1 =>
    exfalso
    have hdata := congrArg String.data h
    rw [candidateName_data] at hdata
    have hlen := congrArg List.length hdata
    simp [candidateName] at hlen
  | j + 1, 0 =>
    exfalso
    have hdata := congrArg String.data h
    rw [candidateName_data] at hdata
    have hlen := congrArg List.length hdata
    simp [candidateName] at hlen
  | j + 1, k + 1 =>
    have hdata := congrArg String.data h
    rw [candidateName_data, candidateName_data] at hdata
    simp only [List.append_assoc, List.append_cancel_left_eq] at hdata
    have hrepr : Nat.repr (j + 2) = Nat.repr (k + 2) := by
      have h1 : (Nat.repr (j + 2)).data = (Nat.repr (k + 2)).data := by
        simpa using hdata
      calc Nat.repr (j + 2) = String.mk (Nat.repr (j + 2)).data := rfl
        _ = String.mk (Nat.repr (k + 2)).data := by rw [h1]
        _ = Nat.repr (k + 2) := rfl
    have := Nat_repr_injective hrepr
    omega

theorem countPlans_eq_zero_iff (store : PlanStore) (pid oid nm : String) :
    countPlans store pid oid nm = 0 ↔
      ∀ p ∈ store, ¬(p.projectId = pid ∧ p.ownerId = oid ∧ p.name = nm) := by
  simp [countPlans, List.length_eq_zero, List.filter_eq_nil_iff]

theorem countPlans_ne_zero_iff (store : PlanStore) (pid oid nm : String) :
    countPlans store pid oid nm ≠ 0 ↔
      ∃ p ∈ store, p.projectId = pid ∧ p.ownerId = oid ∧ p.name = nm := by
  rw [Ne, countPlans_eq_zero_iff]
  push_neg
  tauto

theorem resolveNameLoop_free (store : PlanStore) (pid oid N : String) :
    ∀ (fuel : Nat) (name : String) (i : Nat) (res : String),
      (resolveNameLoop store pid oid N fuel name i).1 = some res →
      countPlans store pid oid res = 0 := by
  intro fuel
  induction fuel with
  | zero => intro name i res h; simp [resolveNameLoop] at h
  | succ fuel ih =>
    intro name i res h
    simp only [resolveNameLoop] at h
    by_cases hc : countPlans store pid oid name = 0
    · simp only [hc, if_true] at h
      cases h
      exact hc
    · simp only [hc, if_false] at h
      exact ih (N ++ "." ++ Nat.repr i) (i + 1) res h

theorem resolveNameLoop_first_free (store : PlanStore) (pid oid N : String) :
    ∀ (d j fuel : Nat),
      (∀ e, e < d → countPlans store pid oid (candidateName N (j + e)) ≠ 0) →
      countPlans store pid oid (candidateName N (j + d)) = 0 →
      d < fuel →
      (resolveNameLoop store pid oid N fuel (candidateName N j) (j + 2)).1 =
        some (candidateName N (j + d)) := by
  intro d
  induction d with
  | zero =>
    intro j fuel _ hfree hfuel
    obtain ⟨fuel, rfl⟩ : ∃ f, fuel = f + 1 := ⟨fuel - 1, by omega⟩
    rw [Nat.add_zero] at hfree
    simp [resolveNameLoop, hfree]
  | succ d ih =>
    intro j fuel hbusy hfree hfuel
    obtain ⟨fuel, rfl⟩ : ∃ f, fuel = f + 1 := ⟨fuel - 1, by omega⟩
    have h0 : countPlans store pid oid (candidateName N j) ≠ 0 := by
      have := hbusy 0 (by omega)
      simpa using this
    have hstep : N ++ "." ++ Nat.repr (j + 2) = candidateName N (j + 1) := rfl
    simp only [resolveNameLoop, h0, if_false, hstep]
    have hbusy1 : ∀ e, e < d → countPlans store pid oid (candidateName N (j + 1 + e)) ≠ 0 := by
      intro e he
      have := hbusy (e + 1) (by omega)
      have harith : j + (e + 1) = j + 1 + e := by omega
      rwa [harith] at this
    have hfree1 : countPlans store pid oid (candidateName N (j + 1 + d)) = 0 := by
      have harith : j + (d + 1) = j + 1 + d := by omega
      rwa [harith] at hfree
    have := ih (j + 1) fuel hbusy1 hfree1 (by omega)
    have harith2 : j + 1 + 2 = j + 2 + 1 := by omega
    rw [harith2] at this
    rw [this]
    have harith3 : j + 1 + d = j + (d + 1) := by omega
    rw [harith3]

theorem exists_free_candidate (store : PlanStore) (pid oid N : String) :
    ∃ j, countPlans store pid oid (candidateName N j) = 0 := by
  by_contra hall
  push_neg at hall
  have hmem : ∀ j, candidateName N j ∈ (store.map Plan.name).toFinset := by
    intro j
    have h := (countPlans_ne_zero_iff store pid oid (candidateName N j)).mp (hall j)
    obtain ⟨p, hp, _, _, hnm⟩ := h
    rw [← hnm]
    simp only [List.mem_toFinset, List.mem_map]
    exact ⟨p, hp, rfl⟩
  have hcard : (Finset.range ((store.map Plan.name).toFinset.card + 1)).card ≤
      (store.map Plan.name).toFinset.card :=
    Finset.card_le_card_of_injOn (fun j => candidateName N j)
      (fun j _ => hmem j) ((candidateName_injective N).injOn)
  rw [Finset.card_range] at hcard
  omega

theorem createPlanAfterGate_not_trialExceeded (orgId projectId userId reqName freshId : String)
    (fuel : Nat) (store : PlanStore) (calls : List DbCall) :
    isTrialExceededOutcome
      (createPlanAfterGate orgId projectId userId reqName freshId fuel store calls).outcome
      = false := by
  simp only [createPlanAfterGate]
  by_cases h1 : (if reqName = "" then "draft" else reqName) = "draft"
  · simp [h1, isTrialExceededOutcome]
  · simp only [h1, if_false]
    cases hl : (resolveNameLoop store projectId userId (if reqName = "" then "draft" else reqName)
        fuel (if reqName = "" then "draft" else reqName) 2).1 with
    | none => simp [hl, isTrialExceededOutcome]
    | some nm => simp [hl, isTrialExceededOutcome]

theorem createPlanHandler_gate_pass (isCloud : Bool) (gur : Option User)
    (orgId projectId userId reqName freshId : String) (fuel : Nat) (store : PlanStore)
    (hga : GateAllows isCloud gur) :
    ∃ pre, (∀ c ∈ pre, c = DbCall.getUserCall userId) ∧
      createPlanHandler isCloud gur orgId projectId userId reqName freshId fuel store =
        createPlanAfterGate orgId projectId userId reqName freshId fuel store pre := by
  rcases hga with hoff | ⟨u, hu, hcase⟩
  · subst hoff
    exact ⟨[], by simp, by simp [createPlanHandler]⟩
  · subst hu
    cases isCloud with
    | false => exact ⟨[], by simp, by simp [createPlanHandler]⟩
    | true =>
      refine ⟨[DbCall.getUserCall userId], by simp, ?_⟩
      rcases hcase with ht | hlt
      · simp [createPlanHandler, ht]
      · have hnle : ¬ TrialMaxPlans ≤ u.NumNonDraftPlans := Nat.not_le.mpr hlt
        by_cases htr : u.IsTrial = true <;> simp [createPlanHandler, htr, hnle]

theorem createPlanHandler_trial_split (isCloud : Bool) (user : User)
    (orgId projectId userId reqName freshId : String) (fuel : Nat) (store : PlanStore) :
    ((createPlanHandler isCloud (some user) orgId projectId userId reqName freshId fuel
        store).outcome = CreateOutcome.apiErrTrialPlansExceeded 403 TrialMaxPlans
        "User has reached max number of free trial plans" ∧
      isCloud = true ∧ user.IsTrial = true ∧ TrialMaxPlans ≤ user.NumNonDraftPlans) ∨
    (isTrialExceededOutcome (createPlanHandler isCloud (some user) orgId projectId userId
        reqName freshId fuel store).outcome = false ∧
      (isCloud = false ∨ user.IsTrial = false ∨ user.NumNonDraftPlans < TrialMaxPlans)) := by
  cases isCloud with
  | false =>
    right
    refine ⟨?_, Or.inl rfl⟩
    simp [createPlanHandler, createPlanAfterGate_not_trialExceeded]
  | true =>
    cases htr : user.IsTrial with
    | false =>
      right
      refine ⟨?_, Or.inr (Or.inl rfl)⟩
      simp [createPlanHandler, htr, createPlanAfterGate_not_trialExceeded]
    | true =>
      by_cases hle : TrialMaxPlans ≤ user.NumNonDraftPlans
      · left
        refine ⟨?_, rfl, rfl, hle⟩
        simp [createPlanHandler, htr, hle]
      · right
        refine ⟨?_, Or.inr (Or.inr (Nat.lt_of_not_le hle))⟩
        simp [createPlanHandler, htr, hle, createPlanAfterGate_not_trialExceeded]

/-- C3: the trial quota gate permits plan creation iff cloud mode is disabled, or the
user is not on trial, or the user's non-draft plan count is strictly below
`TrialMaxPlans` = 10; any refusal is the structured TrialPlansExceeded error with
HTTP status 403 (Forbidden) carrying MaxPlans = 10. -/
theorem trial_quota_gate_permits_iff (isCloud : Bool) (user : User)
    (orgId projectId userId reqName freshId : String) (fuel : Nat) (store : PlanStore) :
    (isTrialExceededOutcome (createPlanHandler isCloud (some user) orgId projectId userId
        reqName freshId fuel store).outcome = false ↔
      (isCloud = false ∨ user.IsTrial = false ∨ user.NumNonDraftPlans < TrialMaxPlans)) ∧
    ∀ s m msg, (createPlanHandler isCloud (some user) orgId projectId userId reqName freshId
        fuel store).outcome = CreateOutcome.apiErrTrialPlansExceeded s m msg →
      s = 403 ∧ m = TrialMaxPlans ∧
        msg = "User has reached max number of free trial plans" := by
  rcases createPlanHandler_trial_split isCloud user orgId projectId userId reqName freshId
      fuel store with ⟨hout, hcl, htr, hle⟩ | ⟨hfalse, hcond⟩
  · constructor
    · rw [hout]
      simp only [isTrialExceededOutcome]
      constructor
      · intro h; cases h
      · intro h
        rcases h with h | h | h
        · rw [hcl] at h; cases h
        · rw [htr] at h; cases h
        · omega
    · intro s m msg h
      rw [hout] at h
      cases h
      exact ⟨rfl, rfl, rfl⟩
  · constructor
    · rw [hfalse]
      simp [hcond]
    · intro s m msg h
      rw [h] at hfalse
      simp [isTrialExceededOutcome] at hfalse

/-- C5: when the trial quota gate fails (cloud mode on, trial user, non-draft plan
count at least 10), the handler stops with the quota error before any mutation: the
store is unchanged, the only call issued is the read-only user fetch, and neither
`DeleteDraftPlans` nor `CreatePlan` is invoked. -/
theorem quota_refusal_no_mutation (isCloud : Bool) (user : User)
    (orgId projectId userId reqName freshId : String) (fuel : Nat) (store : PlanStore)
    (hc : isCloud = true) (ht : user.IsTrial = true)
    (hn : TrialMaxPlans ≤ user.NumNonDraftPlans) :
    (createPlanHandler isCloud (some user) orgId projectId userId reqName freshId fuel
        store).outcome = CreateOutcome.apiErrTrialPlansExceeded 403 TrialMaxPlans
        "User has reached max number of free trial plans" ∧
    (createPlanHandler isCloud (some user) orgId projectId userId reqName freshId fuel
        store).store = store ∧
    (createPlanHandler isCloud (some user) orgId projectId userId reqName freshId fuel
        store).calls = [DbCall.getUserCall userId] ∧
    (∀ o p u n, DbCall.createPlanCall o p u n ∉
      (createPlanHandler isCloud (some user) orgId projectId userId reqName freshId fuel
        store).calls) ∧
    (∀ o p u, DbCall.deleteDraftPlansCall o p u ∉
      (createPlanHandler isCloud (some user) orgId projectId userId reqName freshId fuel
        store).calls) := by
  subst hc
  have hres : createPlanHandler true (some user) orgId projectId userId reqName freshId fuel
      store = ⟨CreateOutcome.apiErrTrialPlansExceeded 403 TrialMaxPlans
        "User has reached max number of free trial plans", store,
        [DbCall.getUserCall userId]⟩ := by
    simp [createPlanHandler, ht, hn]
  rw [hres]
  refine ⟨rfl, rfl, rfl, ?_, ?_⟩
  · intro o p u n
    simp
  · intro o p u
    simp

/-- C8: the collision-avoidance loop has no a-priori iteration bound, yet for every
finite store it terminates: there is a first index `j` whose candidate name is borne
by no plan in (project, owner) scope, and with any fuel exceeding `j` the loop
returns exactly that candidate — the first free name in the sequence
N, N.2, N.3, … -/
theorem resolveNameLoop_terminates (store : PlanStore) (pid oid N : String) :
    ∃ j, countPlans store pid oid (candidateName N j) = 0 ∧
      (∀ e, e < j → countPlans store pid oid (candidateName N e) ≠ 0) ∧
      ∀ fuel, j < fuel →
        (resolveNameLoop store pid oid N fuel N 2).1 = some (candidateName N j) := by
  have hex := exists_free_candidate store pid oid N
  refine ⟨Nat.find hex, Nat.find_spec hex, fun e he => Nat.find_min hex he, ?_⟩
  intro fuel hf
  have hbusy : ∀ e, e < Nat.find hex →
      countPlans store pid oid (candidateName N (0 + e)) ≠ 0 := by
    intro e he
    rw [Nat.zero_add]
    exact Nat.find_min hex he
  have hfree : countPlans store pid oid (candidateName N (0 + Nat.find hex)) = 0 := by
    rw [Nat.zero_add]
    exact Nat.find_spec hex
  have h := resolveNameLoop_first_free store pid oid N (Nat.find hex) 0 fuel hbusy hfree hf
  simp only [Nat.zero_add] at h
  exact h

/-- C9: the archived listing calls the plan store with an empty owner id and
includeArchived = true, the ordinary listing with the caller's user id and
includeArchived = false; consequently the archived listing contains every plan of
the project regardless of its owner. -/
theorem archived_listing_not_owner_scoped (projectId userId : String) (store : PlanStore) :
    (listArchivedPlansHandler projectId store).2 =
      [DbCall.listOwnedPlansCall projectId "" true ""] ∧
    (listPlansHandler projectId userId store).2 =
      [DbCall.listOwnedPlansCall projectId userId false ""] ∧
    ∀ p ∈ store, p.projectId = projectId →
      p ∈ (listArchivedPlansHandler projectId store).1 := by
  refine ⟨rfl, rfl, ?_⟩
  intro p hp hproj
  simp [listArchivedPlansHandler, listOwnedPlans, List.mem_filter, hp, hproj]

theorem deletePlanRow_rows_pos (store : PlanStore) (planId : String)
    (hex : ∃ p ∈ store, p.id = planId) : (deletePlanRow store planId).2 ≠ 0 := by
  obtain ⟨p, hp, hid⟩ := hex
  have hmem : p ∈ store.filter (fun q => q.id == planId) :=
    List.mem_filter.mpr ⟨hp, by simp [hid]⟩
  have hpos := List.length_pos.mpr (List.ne_nil_of_mem hmem)
  simp only [deletePlanRow]
  omega

/-- C10: bulk deletion issues exactly one `DeleteOwnerPlans` row-deleting call and
never a plan-directory deletion, whereas single deletion of an existing owned plan
does call `DeletePlanDir` after removing the row. -/
theorem bulk_delete_never_deletes_dir (orgId projectId userId : String) (store : PlanStore)
    (aplan : Plan) (userId2 orgId2 planId : String) (dirOk : Bool) (store2 : PlanStore)
    (hown : aplan.ownerId = userId2) (hex : ∃ p ∈ store2, p.id = planId) :
    (deleteAllPlansHandler orgId projectId userId store).calls =
      [DbCall.deleteOwnerPlansCall orgId projectId userId] ∧
    (∀ o pl, DbCall.deletePlanDirCall o pl ∉
      (deleteAllPlansHandler orgId projectId userId store).calls) ∧
    DbCall.deletePlanDirCall orgId2 planId ∈
      (deletePlanHandler aplan userId2 orgId2 planId dirOk store2).calls := by
  refine ⟨rfl, ?_, ?_⟩
  · intro o pl
    simp [deleteAllPlansHandler]
  · have hne := deletePlanRow_rows_pos store2 planId hex
    cases dirOk with
    | true => simp [deletePlanHandler, hown, hne]
    | false => simp [deletePlanHandler, hown, hne]

/-- C6: single-plan deletion by a non-owner fails Forbidden with no mutation at all
(no row deletion, no directory deletion, store unchanged); and when no row bears the
plan id, it fails NotFound with the store unchanged and no directory deletion. -/
theorem delete_plan_error_paths (aplan : Plan) (userId orgId planId : String)
    (dirOk : Bool) (store : PlanStore) :
    (aplan.ownerId ≠ userId →
      deletePlanHandler aplan userId orgId planId dirOk store =
        ⟨DeleteOutcome.forbidden "Only the plan owner can delete a plan", store, []⟩) ∧
    (aplan.ownerId = userId → (∀ p ∈ store, p.id ≠ planId) →
      (deletePlanHandler aplan userId orgId planId dirOk store).outcome =
          DeleteOutcome.notFound ∧
        (deletePlanHandler aplan userId orgId planId dirOk store).store = store ∧
        ∀ o pl, DbCall.deletePlanDirCall o pl ∉
          (deletePlanHandler aplan userId orgId planId dirOk store).calls) := by
  constructor
  · intro hne
    simp [deletePlanHandler, hne]
  · intro hown hnone
    have hzero : (deletePlanRow store planId).2 = 0 := by
      simp only [deletePlanRow, List.length_eq_zero, List.filter_eq_nil_iff]
      intro p hp
      simpa using hnone p hp
    have hsame : (deletePlanRow store planId).1 = store := by
      simp only [deletePlanRow, List.filter_eq_self]
      intro p hp
      simpa using hnone p hp
    have hres : deletePlanHandler aplan userId orgId planId dirOk store =
        ⟨DeleteOutcome.notFound, store, [DbCall.deletePlanRowCall planId]⟩ := by
      simp [deletePlanHandler, hown, hzero, hsame]
    rw [hres]
    refine ⟨rfl, rfl, ?_⟩
    intro o pl
    simp

/-- C7: when the plan row is deleted but the subsequent directory deletion fails, the
handler reports a server error while the row deletion is not rolled back: the
resulting store is the row-filtered store and holds no row with the plan id. -/
theorem delete_plan_dir_failure_keeps_row_deleted (aplan : Plan)
    (userId orgId planId : String) (store : PlanStore)
    (hown : aplan.ownerId = userId) (hex : ∃ p ∈ store, p.id = planId) :
    (deletePlanHandler aplan userId orgId planId false store).outcome =
        DeleteOutcome.internalError "Error deleting plan dir" ∧
    (deletePlanHandler aplan userId orgId planId false store).store =
        store.filter (fun p => !(p.id == planId)) ∧
    ∀ p ∈ (deletePlanHandler aplan userId orgId planId false store).store,
      p.id ≠ planId := by
  have hne := deletePlanRow_rows_pos store planId hex
  have hres : deletePlanHandler aplan userId orgId planId false store =
      ⟨DeleteOutcome.internalError "Error deleting plan dir",
        store.filter (fun p => !(p.id == planId)),
        [DbCall.deletePlanRowCall planId, DbCall.deletePlanDirCall orgId planId]⟩ := by
    simp [deletePlanHandler, hown, hne, deletePlanRow]
    exact hex
  rw [hres]
  refine ⟨rfl, rfl, ?_⟩
  intro p hp
  rw [List.mem_filter] at hp
  simpa using hp.2

/-- C1: for a non-draft requested name N and a request that passes the quota gate:
if no plan named N exists in (project, owner) scope the created plan is named N; and
if the names existing in that scope are exactly the contiguous N, N.2, …, N.k with
k ≥ 1 — that is, `candidateName N j` for `j < k` — the loop returns N.(k+1), which is
`candidateName N k`, and the created plan bears that name. -/
theorem create_plan_name_resolution (isCloud : Bool) (gur : Option User)
    (orgId projectId userId reqName freshId : String) (fuel : Nat) (store : PlanStore)
    (hga : GateAllows isCloud gur) (hne : reqName ≠ "") (hnd : reqName ≠ "draft") :
    (countPlans store projectId userId reqName = 0 → 0 < fuel →
      (createPlanHandler isCloud gur orgId projectId userId reqName freshId fuel
        store).outcome = CreateOutcome.created freshId reqName) ∧
    (∀ k, 1 ≤ k → k < fuel →
      (∀ nm, (∃ p ∈ store, p.projectId = projectId ∧ p.ownerId = userId ∧ p.name = nm) ↔
        (∃ j, j < k ∧ nm = candidateName reqName j)) →
      (resolveNameLoop store projectId userId reqName fuel reqName 2).1 =
          some (candidateName reqName k) ∧
      (createPlanHandler isCloud gur orgId projectId userId reqName freshId fuel
          store).outcome = CreateOutcome.created freshId (candidateName reqName k)) := by
  obtain ⟨pre, hpre, heq⟩ := createPlanHandler_gate_pass isCloud gur orgId projectId userId
    reqName freshId fuel store hga
  constructor
  · intro hcount hfuel
    have hloop : (resolveNameLoop store projectId userId reqName fuel reqName 2).1 =
        some reqName := by
      obtain ⟨f, rfl⟩ : ∃ f, fuel = f + 1 := ⟨fuel - 1, by omega⟩
      simp [resolveNameLoop, hcount]
    rw [heq]
    simp [createPlanAfterGate, hne, hnd, hloop, createPlan]
  · intro k hk1 hkfuel hset
    have hbusy : ∀ e, e < k → countPlans store projectId userId (candidateName reqName e) ≠ 0 := by
      intro e he
      rw [countPlans_ne_zero_iff]
      exact (hset (candidateName reqName e)).mpr ⟨e, he, rfl⟩
    have hfreek : countPlans store projectId userId (candidateName reqName k) = 0 := by
      by_contra hc
      obtain ⟨p, hp, hproj, hown, hnm⟩ :=
        (countPlans_ne_zero_iff store projectId userId (candidateName reqName k)).mp hc
      obtain ⟨j, hj, hjeq⟩ := (hset (candidateName reqName k)).mp ⟨p, hp, hproj, hown, hnm⟩
      have := candidateName_injective reqName hjeq
      omega
    have hloop := resolveNameLoop_first_free store projectId userId reqName k 0 fuel
      (by intro e he; rw [Nat.zero_add]; exact hbusy e he)
      (by rw [Nat.zero_add]; exact hfreek) hkfuel
    simp only [Nat.zero_add] at hloop
    have hloop2 : (resolveNameLoop store projectId userId reqName fuel reqName 2).1 =
        some (candidateName reqName k) := hloop
    refine ⟨hloop2, ?_⟩
    rw [heq]
    simp [createPlanAfterGate, hne, hnd, hloop2, createPlan]

/-- C2: a request whose name is empty or "draft" that passes the quota gate first
deletes all drafts of the (org, project, owner) scope and then creates a plan named
exactly "draft"; the collision loop is never entered (no `countPlans` call appears in
the trace), and no previously existing draft of that scope remains in the store. -/
theorem create_plan_draft_replacement (isCloud : Bool) (gur : Option User)
    (orgId projectId userId reqName freshId : String) (fuel : Nat) (store : PlanStore)
    (hga : GateAllows isCloud gur) (hdraft : reqName = "" ∨ reqName = "draft")
    (hfresh : ∀ p ∈ store, p.id ≠ freshId) :
    (createPlanHandler isCloud gur orgId projectId userId reqName freshId fuel
        store).outcome = CreateOutcome.created freshId "draft" ∧
    (createPlanHandler isCloud gur orgId projectId userId reqName freshId fuel
        store).store = deleteDraftPlans store orgId projectId userId ++
        [⟨freshId, orgId, projectId, userId, "draft"⟩] ∧
    (∀ pid2 oid2 nm, DbCall.countPlansCall pid2 oid2 nm ∉
      (createPlanHandler isCloud gur orgId projectId userId reqName freshId fuel
        store).calls) ∧
    (∃ pre, (∀ c ∈ pre, c = DbCall.getUserCall userId) ∧
      (createPlanHandler isCloud gur orgId projectId userId reqName freshId fuel
        store).calls = pre ++ [DbCall.deleteDraftPlansCall orgId projectId userId,
          DbCall.createPlanCall orgId projectId userId "draft"]) ∧
    ∀ p ∈ store, p.orgId = orgId → p.projectId = projectId → p.ownerId = userId →
      p.name = "draft" →
      p ∉ (createPlanHandler isCloud gur orgId projectId userId reqName freshId fuel
        store).store := by
  obtain ⟨pre, hpre, heq⟩ := createPlanHandler_gate_pass isCloud gur orgId projectId userId
    reqName freshId fuel store hga
  have hafter : createPlanAfterGate orgId projectId userId reqName freshId fuel store pre =
      ⟨CreateOutcome.created freshId "draft",
        deleteDraftPlans store orgId projectId userId ++
          [⟨freshId, orgId, projectId, userId, "draft"⟩],
        pre ++ [DbCall.deleteDraftPlansCall orgId projectId userId,
          DbCall.createPlanCall orgId projectId userId "draft"]⟩ := by
    rcases hdraft with h | h <;> simp [createPlanAfterGate, h, createPlan]
  rw [heq, hafter]
  refine ⟨rfl, rfl, ?_, ⟨pre, hpre, rfl⟩, ?_⟩
  · intro pid2 oid2 nm hmem
    rw [List.mem_append] at hmem
    rcases hmem with hm | hm
    · have hcg := hpre _ hm
      simp at hcg
    · simp at hm
  · intro p hp horg hproj hown hname hmem
    rw [List.mem_append] at hmem
    rcases hmem with hm | hm
    · rw [deleteDraftPlans, List.mem_filter] at hm
      have hcond := hm.2
      simp [horg, hproj, hown, hname] at hcond
    · simp only [List.mem_singleton] at hm
      have hid := hfresh p hp
      rw [hm] at hid
      exact hid rfl

theorem scopedNamesUnique_filter (store : PlanStore) (f : Plan → Bool)
    (h : ScopedNamesUnique store) : ScopedNamesUnique (store.filter f) :=
  List.Pairwise.sublist (List.filter_sublist store) h

theorem createPlanAfterGate_preserves_unique (orgId projectId userId reqName freshId : String)
    (fuel : Nat) (store : PlanStore) (calls : List DbCall)
    (huniq : ScopedNamesUnique store)
    (horg : ∀ p ∈ store, p.projectId = projectId → p.orgId = orgId) :
    ScopedNamesUnique
      (createPlanAfterGate orgId projectId userId reqName freshId fuel store calls).store := by
  by_cases hdraft : (if reqName = "" then "draft" else reqName) = "draft"
  · have hstore : (createPlanAfterGate orgId projectId userId reqName freshId fuel store
        calls).store = deleteDraftPlans store orgId projectId userId ++
        [⟨freshId, orgId, projectId, userId, "draft"⟩] := by
      simp [createPlanAfterGate, hdraft, createPlan]
    rw [hstore]
    refine List.pairwise_append.mpr ⟨scopedNamesUnique_filter store _ huniq,
      List.pairwise_singleton _ _, ?_⟩
    intro a ha b hb
    simp only [List.mem_singleton] at hb
    subst hb
    intro hproj hown hname
    rw [deleteDraftPlans, List.mem_filter] at ha
    have horga := horg a ha.1 hproj
    have hcond := ha.2
    simp [horga, hproj, hown, hname] at hcond
  · cases hl : (resolveNameLoop store projectId userId
        (if reqName = "" then "draft" else reqName) fuel
        (if reqName = "" then "draft" else reqName) 2).1 with
    | none =>
      have hstore : (createPlanAfterGate orgId projectId userId reqName freshId fuel store
          calls).store = store := by
        simp [createPlanAfterGate, hdraft, hl]
      rw [hstore]
      exact huniq
    | some nm =>
      have hstore : (createPlanAfterGate orgId projectId userId reqName freshId fuel store
          calls).store = store ++ [⟨freshId, orgId, projectId, userId, nm⟩] := by
        simp [createPlanAfterGate, hdraft, hl, createPlan]
      rw [hstore]
      have hfree := resolveNameLoop_free store projectId userId
        (if reqName = "" then "draft" else reqName) fuel
        (if reqName = "" then "draft" else reqName) 2 nm hl
      refine List.pairwise_append.mpr ⟨huniq, List.pairwise_singleton _ _, ?_⟩
      intro a ha b hb
      simp only [List.mem_singleton] at hb
      subst hb
      intro hproj hown hname
      have := (countPlans_eq_zero_iff store projectId userId nm).mp hfree a ha
      exact this ⟨hproj, hown, hname⟩

theorem createPlanHandler_store_cases (isCloud : Bool) (gur : Option User)
    (orgId projectId userId reqName freshId : String) (fuel : Nat) (store : PlanStore) :
    (createPlanHandler isCloud gur orgId projectId userId reqName freshId fuel
        store).store = store ∨
    ∃ pre, (createPlanHandler isCloud gur orgId projectId userId reqName freshId fuel
        store).store =
      (createPlanAfterGate orgId projectId userId reqName freshId fuel store pre).store := by
  cases isCloud with
  | false => exact Or.inr ⟨[], by simp [createPlanHandler]⟩
  | true =>
    cases gur with
    | none => exact Or.inl (by simp [createPlanHandler])
    | some u =>
      cases htr : u.IsTrial with
      | false =>
        exact Or.inr ⟨[DbCall.getUserCall userId], by simp [createPlanHandler, htr]⟩
      | true =>
        by_cases hle : TrialMaxPlans ≤ u.NumNonDraftPlans
        · exact Or.inl (by simp [createPlanHandler, htr, hle])
        · exact Or.inr ⟨[DbCall.getUserCall userId], by simp [createPlanHandler, htr, hle]⟩

theorem deletePlanHandler_store_cases (aplan : Plan) (userId orgId planId : String)
    (dirOk : Bool) (store : PlanStore) :
    (deletePlanHandler aplan userId orgId planId dirOk store).store = store ∨
    (deletePlanHandler aplan userId orgId planId dirOk store).store =
      store.filter (fun p => !(p.id == planId)) := by
  simp only [deletePlanHandler]
  by_cases howner : aplan.ownerId = userId
  · rw [if_neg (not_not_intro howner)]
    right
    by_cases h0 : (deletePlanRow store planId).2 = 0
    · rw [if_pos h0]
      rfl
    · rw [if_neg h0]
      by_cases hd : dirOk = true
      · rw [if_pos hd]
        rfl
      · rw [if_neg hd]
        rfl
  · rw [if_pos howner]
    left
    rfl

/-- C4: the per-(project, owner) name-uniqueness invariant is preserved by the
handler set — creation (which only inserts a name whose existence check reported
count 0, or "draft" after the scope's drafts were deleted), single deletion and bulk
deletion — under the store's referential integrity: rows of the request's project
belong to the request's organization. -/
theorem handlers_preserve_scoped_name_uniqueness (isCloud : Bool) (gur : Option User)
    (orgId projectId userId reqName freshId : String) (fuel : Nat)
    (aplan : Plan) (userId2 orgId2 planId : String) (dirOk : Bool)
    (orgId3 projectId3 userId3 : String) (store : PlanStore)
    (huniq : ScopedNamesUnique store)
    (horg : ∀ p ∈ store, p.projectId = projectId → p.orgId = orgId) :
    ScopedNamesUnique (createPlanHandler isCloud gur orgId projectId userId reqName freshId
      fuel store).store ∧
    ScopedNamesUnique (deletePlanHandler aplan userId2 orgId2 planId dirOk store).store ∧
    ScopedNamesUnique (deleteAllPlansHandler orgId3 projectId3 userId3 store).store := by
  refine ⟨?_, ?_, ?_⟩
  · rcases createPlanHandler_store_cases isCloud gur orgId projectId userId reqName freshId
        fuel store with hs | ⟨pre, hs⟩
    · rw [hs]; exact huniq
    · rw [hs]
      exact createPlanAfterGate_preserves_unique orgId projectId userId reqName freshId fuel
        store pre huniq horg
  · rcases deletePlanHandler_store_cases aplan userId2 orgId2 planId dirOk store with hs | hs
    · rw [hs]; exact huniq
    · rw [hs]; exact scopedNamesUnique_filter store _ huniq
  · have hs : (deleteAllPlansHandler orgId3 projectId3 userId3 store).store =
        store.filter (fun p =>
          !(p.orgId == orgId3 && p.projectId == projectId3 && p.ownerId == userId3)) := by
      simp [deleteAllPlansHandler, deleteOwnerPlans]
    rw [hs]
    exact scopedNamesUnique_filter store _ huniq

theorem create_plan_name_resolution_witness :
    (createPlanHandler false none "o" "pr" "u" "x" "id1" 1 []).outcome =
        CreateOutcome.created "id1" "x" ∧
    (createPlanHandler false none "o" "pr" "u" "x" "id9" 2
        [⟨"p1", "o", "pr", "u", "x"⟩]).outcome =
      CreateOutcome.created "id9" (candidateName "x" 1) := by
  constructor
  · exact (create_plan_name_resolution false none "o" "pr" "u" "x" "id1" 1 []
      (Or.inl rfl) (by decide) (by decide)).1 (by decide) (by decide)
  · refine ((create_plan_name_resolution false none "o" "pr" "u" "x" "id9" 2
      [⟨"p1", "o", "pr", "u", "x"⟩] (Or.inl rfl) (by decide) (by decide)).2
      1 (by decide) (by decide) ?_).2
    intro nm
    constructor
    · rintro ⟨p, hp, hproj, hown, hnm⟩
      rw [List.mem_singleton] at hp
      subst hp
      exact ⟨0, by decide, hnm.symm⟩
    · rintro ⟨j, hj, hnm⟩
      have hj0 : j = 0 := by omega
      subst hj0
      exact ⟨⟨"p1", "o", "pr", "u", "x"⟩, List.mem_singleton_self _, rfl, rfl, hnm.symm⟩

theorem create_plan_draft_replacement_witness :
    (createPlanHandler false none "o" "pr" "u" "" "f1" 0
        [⟨"p1", "o", "pr", "u", "draft"⟩]).outcome = CreateOutcome.created "f1" "draft" ∧
    (⟨"p1", "o", "pr", "u", "draft"⟩ : Plan) ∉
      (createPlanHandler false none "o" "pr" "u" "" "f1" 0
        [⟨"p1", "o", "pr", "u", "draft"⟩]).store := by
  have h := create_plan_draft_replacement false none "o" "pr" "u" "" "f1" 0
    [⟨"p1", "o", "pr", "u", "draft"⟩] (Or.inl rfl) (Or.inl rfl) (by decide)
  exact ⟨h.1, h.2.2.2.2 _ (List.mem_singleton_self _) rfl rfl rfl rfl⟩

theorem trial_quota_gate_permits_iff_witness :
    isTrialExceededOutcome
      (createPlanHandler true (some ⟨true, 10⟩) "o" "pr" "u" "x" "f" 1 []).outcome = true ∧
    isTrialExceededOutcome
      (createPlanHandler true (some ⟨true, 9⟩) "o" "pr" "u" "x" "f" 1 []).outcome = false := by
  constructor
  · have h := (trial_quota_gate_permits_iff true ⟨true, 10⟩ "o" "pr" "u" "x" "f" 1 []).1
    cases hb : isTrialExceededOutcome
        (createPlanHandler true (some ⟨true, 10⟩) "o" "pr" "u" "x" "f" 1 []).outcome with
    | true => rfl
    | false =>
      rcases h.mp hb with hx | hx | hx
      · exact absurd hx (by decide)
      · exact absurd hx (by decide)
      · exact absurd hx (by decide)
  · exact (trial_quota_gate_permits_iff true ⟨true, 9⟩ "o" "pr" "u" "x" "f" 1 []).1.mpr
      (Or.inr (Or.inr (by decide)))

theorem handlers_preserve_scoped_name_uniqueness_witness :
    ScopedNamesUnique (createPlanHandler false none "o" "pr" "u" "x" "f" 1 []).store ∧
    ScopedNamesUnique (deletePlanHandler ⟨"p1", "o", "pr", "u", "x"⟩ "u" "o" "p1" true
      []).store ∧
    ScopedNamesUnique (deleteAllPlansHandler "o" "pr" "u" []).store :=
  handlers_preserve_scoped_name_uniqueness false none "o" "pr" "u" "x" "f" 1
    ⟨"p1", "o", "pr", "u", "x"⟩ "u" "o" "p1" true "o" "pr" "u" [] List.Pairwise.nil
    (fun p hp _ => absurd hp (List.not_mem_nil p))

theorem quota_refusal_no_mutation_witness :
    (createPlanHandler true (some ⟨true, 10⟩) "o" "pr" "u" "x" "f" 1 []).outcome =
      CreateOutcome.apiErrTrialPlansExceeded 403 TrialMaxPlans
        "User has reached max number of free trial plans" ∧
    (createPlanHandler true (some ⟨true, 10⟩) "o" "pr" "u" "x" "f" 1 []).store = [] ∧
    (createPlanHandler true (some ⟨true, 10⟩) "o" "pr" "u" "x" "f" 1 []).calls =
      [DbCall.getUserCall "u"] := by
  have h := quota_refusal_no_mutation true ⟨true, 10⟩ "o" "pr" "u" "x" "f" 1 [] rfl rfl
    (by decide)
  exact ⟨h.1, h.2.1, h.2.2.1⟩

theorem delete_plan_error_paths_witness :
    deletePlanHandler ⟨"p1", "o", "pr", "alice", "x"⟩ "bob" "o" "p1" true
        [⟨"p1", "o", "pr", "alice", "x"⟩] =
      ⟨DeleteOutcome.forbidden "Only the plan owner can delete a plan",
        [⟨"p1", "o", "pr", "alice", "x"⟩], []⟩ ∧
    (deletePlanHandler ⟨"p9", "o", "pr", "u", "x"⟩ "u" "o" "p9" true []).outcome =
      DeleteOutcome.notFound := by
  constructor
  · exact (delete_plan_error_paths ⟨"p1", "o", "pr", "alice", "x"⟩ "bob" "o" "p1" true
      [⟨"p1", "o", "pr", "alice", "x"⟩]).1 (by decide)
  · exact ((delete_plan_error_paths ⟨"p9", "o", "pr", "u", "x"⟩ "u" "o" "p9" true []).2 rfl
      (fun p hp => absurd hp (List.not_mem_nil p))).1

theorem delete_plan_dir_failure_keeps_row_deleted_witness :
    (deletePlanHandler ⟨"p1", "o", "pr", "u", "x"⟩ "u" "o" "p1" false
        [⟨"p1", "o", "pr", "u", "x"⟩]).outcome =
      DeleteOutcome.internalError "Error deleting plan dir" ∧
    (deletePlanHandler ⟨"p1", "o", "pr", "u", "x"⟩ "u" "o" "p1" false
        [⟨"p1", "o", "pr", "u", "x"⟩]).store = [] := by
  have h := delete_plan_dir_failure_keeps_row_deleted ⟨"p1", "o", "pr", "u", "x"⟩ "u" "o"
    "p1" [⟨"p1", "o", "pr", "u", "x"⟩] rfl
    ⟨⟨"p1", "o", "pr", "u", "x"⟩, List.mem_singleton_self _, rfl⟩
  refine ⟨h.1, ?_⟩
  rw [h.2.1]
  decide

theorem resolveNameLoop_terminates_witness :
    ∃ j, countPlans [] "pr" "u" (candidateName "x" j) = 0 ∧
      (∀ e, e < j → countPlans [] "pr" "u" (candidateName "x" e) ≠ 0) ∧
      ∀ fuel, j < fuel →
        (resolveNameLoop [] "pr" "u" "x" fuel "x" 2).1 = some (candidateName "x" j) :=
  resolveNameLoop_terminates [] "pr" "u" "x"

theorem archived_listing_not_owner_scoped_witness :
    (listArchivedPlansHandler "pr" [⟨"p1", "o", "pr", "other", "x"⟩]).2 =
      [DbCall.listOwnedPlansCall "pr" "" true ""] ∧
    (⟨"p1", "o", "pr", "other", "x"⟩ : Plan) ∈
      (listArchivedPlansHandler "pr" [⟨"p1", "o", "pr", "other", "x"⟩]).1 := by
  have h := archived_listing_not_owner_scoped "pr" "u" [⟨"p1", "o", "pr", "other", "x"⟩]
  exact ⟨h.1, h.2.2 _ (List.mem_singleton_self _) rfl⟩

theorem bulk_delete_never_deletes_dir_witness :
    (deleteAllPlansHandler "o" "pr" "u" [⟨"p1", "o", "pr", "u", "x"⟩]).calls =
      [DbCall.deleteOwnerPlansCall "o" "pr" "u"] ∧
    DbCall.deletePlanDirCall "o" "p1" ∈
      (deletePlanHandler ⟨"p1", "o", "pr", "u", "x"⟩ "u" "o" "p1" true
        [⟨"p1", "o", "pr", "u", "x"⟩]).calls := by
  have h := bulk_delete_never_deletes_dir "o" "pr" "u" [⟨"p1", "o", "pr", "u", "x"⟩]
    ⟨"p1", "o", "pr", "u", "x"⟩ "u" "o" "p1" true [⟨"p1", "o", "pr", "u", "x"⟩] rfl
    ⟨⟨"p1", "o", "pr", "u", "x"⟩, List.mem_singleton_self _, rfl⟩
  exact ⟨h.1, h.2.2⟩

end PlansCrud
